import Mathlib

/-!
# Verification of the hostcall-instrumented wasmtime timing layer

Shallow embedding of the two source files of the repository:

* `crates/wiggle/src/timing.rs` — a per-thread `HashMap<String, Vec<f64>>`
  (`ResultsType`) holding timing samples per hostcall name, the rdtsc-based
  timers `start_timer` / `stop_timer`, and `push_result`.
* `src/bin/wasmtime.rs` — `main`, which runs the selected command, then writes
  a statistics report (`./wasmtime_results.txt`) from the timing store and
  returns the command's result.

Modelling choices:
* the `HashMap` is embedded as an association list with pairwise-distinct
  keys (a `HashMap` never holds a key twice);
* `f64` sample values are idealised as `ℚ` (exact arithmetic); the geometric
  mean, which takes real roots, lives in `ℝ`;
* `u64` values are `ℕ` together with the hypothesis `< 2^64` where it
  matters; `u64` subtraction `end - start` is embedded with its wrapping
  (release-mode) semantics, `(end + 2^64 - start) % 2^64`;
* a Rust panic (`unwrap` on a missing key, `expect` on a failed
  `File::create`) is embedded as `Option.none` / an explicit `panicked`
  outcome: the operation aborts and no state mutation is observed.
-/

set_option autoImplicit false

namespace HostcallTiming

/-- The closed set of hostcall names, in the insertion order of
`wasi_results_init` in `crates/wiggle/src/timing.rs`. -/
def closedSet : List String :=
  [ "args_get", "args_sizes_get", "proc_exit", "environ_sizes_get",
    "environ_get", "fd_prestat_get", "fd_write", "fd_read", "fd_close",
    "fd_seek", "clock_time_get", "clock_res_get", "fd_advise",
    "fd_allocate", "fd_datasync", "fd_fdstat_get", "fd_fdstat_set_flags",
    "fd_filestat_get", "fd_filestat_set_size", "fd_filestat_set_times",
    "fd_pread", "fd_prestat_dir_name", "fd_pwrite", "fd_readdir",
    "fd_renumber", "fd_sync", "fd_tell", "path_create_directory",
    "path_filestat_get", "path_filestat_set_times", "path_link",
    "path_open", "path_readlink", "path_remove_directory", "path_rename",
    "path_symlink", "path_unlink_file", "poll_oneoff", "proc_raise",
    "random_get", "sched_yield", "sock_recv", "sock_send",
    "sock_shutdown", "socket", "sock_connect" ]

/-- Embedding of `ResultsType`: name of hostcall -> vector of (nanosecond) samples.
The Rust `HashMap<String, Vec<f64>>` is embedded as an association list;
`f64` is idealised as `ℚ`. -/
abbrev ResultsType : Type := List (String × List ℚ)

/-- The key set of a store, as a list. -/
def keys (r : ResultsType) : List String := r.map Prod.fst

/-- First-match association lookup (the `HashMap::get` of the source; keys
are pairwise distinct in every reachable store, so first match is the
match). -/
def lookupS : ResultsType → String → Option (List ℚ)
  | [], _ => none
  | (k, v) :: rest, n => if k = n then some v else lookupS rest n

/-- Replace the value at the first occurrence of a key (the in-place
mutation through `HashMap::get_mut` of the source). -/
def setEntry : ResultsType → String → List ℚ → ResultsType
  | [], _, _ => []
  | (k, w) :: rest, n, v =>
      if k = n then (k, v) :: rest else (k, w) :: setEntry rest n v

/-- Embedding of `wasi_results_init`: the store holding every closed-set hostcall name
mapped to an empty sample vector. -/
def wasi_results_init : ResultsType := closedSet.map (fun n => (n, []))

/-- Wrapping `u64` subtraction `a - b` (release-mode semantics), valid for
`a, b < 2^64`. -/
def u64sub (a b : ℕ) : ℕ := (a + 2 ^ 64 - b) % 2 ^ 64

/-- The sample value pushed by `push_result`: the raw tick delta
`end - start` (wrapping `u64` subtraction), cast to a float and divided by
the calibration constant `2.1` (the assumed 2.1 GHz clock), idealised over
`ℚ`. -/
def duration (start stop : ℕ) : ℚ := (u64sub stop start : ℚ) / (21 / 10)

/-- Embedding of `push_result(name, start, end)`: look the name up in the store and
append the computed duration to its sample vector. A missing name makes
`unwrap` panic, embedded as `none`; no mutation happens in that case. -/
def push_result (name : String) (start stop : ℕ) (r : ResultsType) :
    Option ResultsType :=
  match lookupS r name with
  | none => none
  | some v => some (setEntry r name (v ++ [duration start stop]))

/-- A sequence of `push_result` calls to one name, in order (one thread). -/
def pushMany (name : String) (ps : List (ℕ × ℕ)) (r : ResultsType) :
    Option ResultsType :=
  ps.foldlM (fun acc p => push_result name p.1 p.2 acc) r

/-! ## Timers (`start_timer` / `stop_timer`) -/

/-- The x86 instructions appearing in the timers. -/
inductive Instr where
  | cpuid
  | rdtsc
  | rdtscp
deriving DecidableEq, Repr

/-- Whether an instruction serializes the pipeline: `cpuid` is a fully pipeline-serializing instruction; the counter reads
are not (``rdtscp`` only waits for prior instructions). -/
def serializing : Instr → Bool
  | .cpuid => true
  | .rdtsc => false
  | .rdtscp => false

/-- The instructions that read the cycle counter. -/
def readsCounter : Instr → Bool
  | .cpuid => false
  | .rdtsc => true
  | .rdtscp => true

/-- Instruction sequence executed by `start_timer`:
`__cpuid_count(0, 0); _rdtsc()`. -/
def start_timer_instrs : List Instr := [.cpuid, .rdtsc]

/-- Instruction sequence executed by `stop_timer`:
`__rdtscp(&mut junk); __cpuid_count(0, 0)`. -/
def stop_timer_instrs : List Instr := [.rdtscp, .cpuid]

/-- The machine state visible to the timing layer: the time-stamp counter
and the thread's `results` store. -/
structure Machine where
  tsc : ℕ
  store : ResultsType

/-- Embedding of `start_timer`: serialize, then read the cycle counter. It returns the
counter value; it touches no part of the `results` store. -/
def start_timer (m : Machine) : ℕ × Machine := (m.tsc, m)

/-- Embedding of `stop_timer`: read the cycle counter (`rdtscp`), then serialize. It
returns the counter value; it touches no part of the `results` store. -/
def stop_timer (m : Machine) : ℕ × Machine := (m.tsc, m)

/-! ## Statistics (the reporter's mean and geometric mean) -/

/-- Modelled from the spec: `statistical::mean`, used by `main` but coming
from the external `statistical` crate whose source is not part of this
repository — the arithmetic mean, i.e. the sum of the samples divided by
their count. -/
def mean (l : List ℚ) : ℚ := l.sum / l.length

/-- Modelled from the spec: `statistical::univariate::geometric_mean`, used
by `main` but coming from the external `statistical` crate whose source is
not part of this repository — "the `count`-th root of the product of all
samples". -/
noncomputable def geometric_mean (l : List ℚ) : ℝ :=
  ((l.map (fun q : ℚ => (q : ℝ))).prod) ^ ((l.length : ℝ))⁻¹

/-! ## The report written by `main` (`src/bin/wasmtime.rs`) -/

/-- Rust `{:?}` (Debug) formatting of a `String`: the text wrapped in
double quotes (none of the closed-set names needs escaping). -/
def rustDebugString (s : String) : String :=
  String.mk ('"' :: s.data ++ ['"'])

/-- One line of `wasmtime_results.txt`: the four comma-separated fields of
`writeln!(f, ..., k, v.len(), mean, geomean)`, in field order. Float
rendering is not modelled; the fields are kept as values. -/
structure ReportLine where
  name : String
  count : ℕ
  mean : ℚ
  geomean : ℝ

/-- The line emitted for one store entry. -/
noncomputable def mkLine (p : String × List ℚ) : ReportLine :=
  { name := rustDebugString p.1
    count := p.2.length
    mean := mean p.2
    geomean := geometric_mean p.2 }

/-- The sequence of lines the reporting loop writes: iterate over the
store, skipping entries with an empty sample vector, appending one line per
remaining entry. -/
noncomputable def reportLines (r : ResultsType) : List ReportLine :=
  r.foldl (fun acc p => if p.2.isEmpty then acc else acc ++ [mkLine p]) []

/-! ## `main` -/

/-- Whether the two filesystem operations of the reporting phase fail:
`File::create("./wasmtime_results.txt")` and the `writeln!` calls. -/
structure FsEnv where
  createFails : Bool
  writeFails : Bool
deriving DecidableEq, Repr

/-- How `main` ends: a panic (here only the `expect` on `File::create`), or
a normal return of an `anyhow::Result<()>` (modelled as
`Except String Unit`). -/
inductive MainOutcome where
  | panicked (msg : String)
  | returned (res : Except String Unit)

/-- Observable effect of one run of `main`: the report lines that were
emitted (`none` when the file was never created) and the outcome. -/
structure MainRun where
  reportWritten : Option (List ReportLine)
  outcome : MainOutcome

/-- Embedding of `main`: run the selected command (abstracted as a state transformer on
the thread's `results` store, returning the command's result), then create
the report file and write one line per non-empty entry of the post-command
store, then return the command's result.

* a failed `File::create` hits `.expect("Unable to open file")`: `main`
  panics and no report is written;
* the `Result` of each `writeln!` is discarded by the source, so
  `fs.writeFails` is (faithfully) never consulted. -/
noncomputable def runMain (cmd : ResultsType → Except String Unit × ResultsType)
    (fs : FsEnv) (s0 : ResultsType) : MainRun :=
  let res := (cmd s0).1
  let s1 := (cmd s0).2
  if fs.createFails then
    { reportWritten := none, outcome := .panicked "Unable to open file" }
  else
    { reportWritten := some (reportLines s1), outcome := .returned res }

/-! ## Basic lemmas about the association-list store -/

theorem lookupS_eq_none_of_not_mem {r : ResultsType} {n : String}
    (h : n ∉ keys r) : lookupS r n = none := by
  induction r with
  | nil => rfl
  | cons p rest ih =>
      obtain ⟨k, v⟩ := p
      simp only [keys, List.map_cons, List.mem_cons] at h
      push_neg at h
      obtain ⟨h1, h2⟩ := h
      have hk : ¬ k = n := fun hkn => h1 hkn.symm
      simp only [lookupS, if_neg hk]
      exact ih h2

theorem lookupS_isSome_of_mem {r : ResultsType} {n : String}
    (h : n ∈ keys r) : ∃ v, lookupS r n = some v := by
  induction r with
  | nil => simp [keys] at h
  | cons p rest ih =>
      obtain ⟨k, v⟩ := p
      by_cases hk : k = n
      · exact ⟨v, by simp [lookupS, hk]⟩
      · simp only [keys, List.map_cons, List.mem_cons] at h
        rcases h with h | h
        · exact absurd h.symm hk
        · simpa [lookupS, hk] using ih (by simpa [keys] using h)

theorem keys_setEntry (r : ResultsType) (n : String) (v : List ℚ) :
    keys (setEntry r n v) = keys r := by
  induction r with
  | nil => rfl
  | cons p rest ih =>
      obtain ⟨k, w⟩ := p
      by_cases hk : k = n
      · simp [setEntry, hk, keys]
      · simp only [setEntry, if_neg hk, keys, List.map_cons]
        exact congrArg (List.cons k) ih

theorem lookupS_setEntry_self {r : ResultsType} {n : String} {w : List ℚ}
    (h : lookupS r n = some w) (v : List ℚ) :
    lookupS (setEntry r n v) n = some v := by
  induction r with
  | nil => simp [lookupS] at h
  | cons p rest ih =>
      obtain ⟨k, w'⟩ := p
      by_cases hk : k = n
      · simp [setEntry, lookupS, hk]
      · simp only [lookupS, if_neg hk] at h
        simp [setEntry, lookupS, hk, ih h]

theorem lookupS_setEntry_other (r : ResultsType) {n m : String}
    (hnm : m ≠ n) (v : List ℚ) :
    lookupS (setEntry r n v) m = lookupS r m := by
  induction r with
  | nil => rfl
  | cons p rest ih =>
      obtain ⟨k, w⟩ := p
      by_cases hk : k = n
      · subst hk
        have hkm : ¬ k = m := fun h => hnm h.symm
        simp only [setEntry, if_pos rfl, lookupS, if_neg hkm]
      · by_cases hm : k = m
        · simp only [setEntry, if_neg hk, lookupS, if_pos hm]
        · simp only [setEntry, if_neg hk, lookupS, if_neg hm, ih]

theorem lookupS_init_mem {n : String} (h : n ∈ closedSet) :
    lookupS wasi_results_init n = some [] := by
  have : ∀ l : List String, n ∈ l →
      lookupS (l.map (fun m => (m, ([] : List ℚ)))) n = some [] := by
    intro l hl
    induction l with
    | nil => cases hl
    | cons a as ih =>
        rcases List.mem_cons.mp hl with hna | hna
        · simp [lookupS, hna.symm]
        · by_cases ha : a = n
          · simp [lookupS, ha]
          · simp [lookupS, ha, ih hna]
  exact this closedSet h

theorem mem_keys_of_lookupS {r : ResultsType} {n : String} {v : List ℚ}
    (h : lookupS r n = some v) : n ∈ keys r := by
  induction r with
  | nil => simp [lookupS] at h
  | cons p rest ih =>
      obtain ⟨k, w⟩ := p
      by_cases hk : k = n
      · simp [keys, hk]
      · simp only [lookupS, if_neg hk] at h
        simp only [keys, List.map_cons, List.mem_cons]
        exact Or.inr (ih h)

theorem push_result_some {name : String} {start stop : ℕ} {r r' : ResultsType}
    (h : push_result name start stop r = some r') :
    ∃ v, lookupS r name = some v ∧
      r' = setEntry r name (v ++ [duration start stop]) := by
  unfold push_result at h
  cases hl : lookupS r name with
  | none => rw [hl] at h; cases h
  | some v => rw [hl] at h; exact ⟨v, rfl, (Option.some.injEq _ _ ▸ h).symm⟩

theorem pushMany_lookupS (name : String) (ps : List (ℕ × ℕ)) :
    ∀ (r : ResultsType) (v : List ℚ), lookupS r name = some v →
      ∃ r', pushMany name ps r = some r' ∧
        lookupS r' name = some (v ++ ps.map (fun p => duration p.1 p.2)) := by
  induction ps with
  | nil => intro r v h; exact ⟨r, rfl, by simpa using h⟩
  | cons p ps ih =>
      intro r v h
      have hpush : push_result name p.1 p.2 r =
          some (setEntry r name (v ++ [duration p.1 p.2])) := by
        unfold push_result; rw [h]
      have hlook : lookupS (setEntry r name (v ++ [duration p.1 p.2])) name =
          some (v ++ [duration p.1 p.2]) := lookupS_setEntry_self h _
      obtain ⟨r', hr', hlook'⟩ := ih _ _ hlook
      refine ⟨r', ?_, ?_⟩
      · unfold pushMany at hr' ⊢
        rw [List.foldlM_cons, hpush]
        exact hr'
      · rw [hlook']
        simp

/-! ## Lemmas about the report -/

theorem reportLines_foldl (l : List (String × List ℚ)) (init : List ReportLine) :
    l.foldl (fun acc p => if p.2.isEmpty then acc else acc ++ [mkLine p]) init =
      init ++ (l.filter (fun p => !p.2.isEmpty)).map mkLine := by
  induction l generalizing init with
  | nil => simp
  | cons p rest ih =>
      rw [List.foldl_cons, List.filter_cons]
      cases hp : p.2.isEmpty
      · rw [ih]; simp [hp, List.append_assoc]
      · rw [ih]; simp [hp]

theorem reportLines_eq (r : ResultsType) :
    reportLines r = (r.filter (fun p => !p.2.isEmpty)).map mkLine := by
  unfold reportLines
  simpa using reportLines_foldl r []

theorem rustDebugString_inj {s t : String}
    (h : rustDebugString s = rustDebugString t) : s = t := by
  unfold rustDebugString at h
  obtain ⟨sd⟩ := s
  obtain ⟨td⟩ := t
  have h2 : ('"' :: sd ++ ['"']) = ('"' :: td ++ ['"']) := congrArg String.data h
  simp only [List.cons_append, List.cons.injEq, true_and] at h2
  exact congrArg String.mk (List.append_cancel_right h2)

theorem countP_report_not_mem {r : ResultsType} {k : String}
    (h : k ∉ keys r) :
    r.countP (fun p => (rustDebugString p.1 == rustDebugString k) && !p.2.isEmpty)
      = 0 := by
  refine List.countP_eq_zero.mpr ?_
  intro p hp hcontra
  rw [Bool.and_eq_true] at hcontra
  obtain ⟨heq, -⟩ := hcontra
  rw [beq_iff_eq] at heq
  exact h (rustDebugString_inj heq ▸ List.mem_map_of_mem Prod.fst hp)

theorem countP_report_mem (k : String) (v : List ℚ) :
    ∀ r : ResultsType, (keys r).Nodup → (k, v) ∈ r →
      r.countP (fun p => (rustDebugString p.1 == rustDebugString k) && !p.2.isEmpty)
        = if v.isEmpty then 0 else 1 := by
  intro r
  induction r with
  | nil => intro _ hm; cases hm
  | cons p rest ih =>
      intro hnd hm
      obtain ⟨k', v'⟩ := p
      simp only [keys, List.map_cons, List.nodup_cons] at hnd
      by_cases hk : k' = k
      · subst hk
        have hv : v' = v := by
          rcases List.mem_cons.mp hm with h | h
          · exact (Prod.ext_iff.mp h).2.symm
          · exact absurd (List.mem_map_of_mem Prod.fst h) hnd.1
        have hrest : rest.countP
            (fun p => (rustDebugString p.1 == rustDebugString k') && !p.2.isEmpty)
              = 0 :=
          countP_report_not_mem hnd.1
        rw [← hv]
        cases hne : v'.isEmpty <;>
          simp [List.countP_cons, hrest, hne]
      · have hm' : (k, v) ∈ rest := by
          rcases List.mem_cons.mp hm with h | h
          · exact absurd (Prod.ext_iff.mp h).1.symm hk
          · exact h
        have hne : (rustDebugString k' == rustDebugString k) = false := by
          rw [beq_eq_false_iff_ne]
          exact fun h => hk (rustDebugString_inj h)
        simp [List.countP_cons, hne, ih hnd.2 hm']

/-! ## Claim theorems -/

/-- C9: `start_timer` executes the pipeline-serializing `cpuid` instruction
before its cycle-counter read, and `stop_timer` performs its counter read —
which is the `rdtscp` instruction — before its serializing `cpuid`, so each
measurement boundary places a serializing instruction between the measured
region and the outside on the executing core. -/
theorem timer_serialization_c9 :
    (∃ i j : Fin start_timer_instrs.length, (i : ℕ) < (j : ℕ) ∧
        serializing (start_timer_instrs.get i) = true ∧
        readsCounter (start_timer_instrs.get j) = true) ∧
    (∃ i j : Fin stop_timer_instrs.length, (i : ℕ) < (j : ℕ) ∧
        readsCounter (stop_timer_instrs.get i) = true ∧
        stop_timer_instrs.get i = Instr.rdtscp ∧
        serializing (stop_timer_instrs.get j) = true) := by
  decide

/-- C10: a successful `push_result` changes only the targeted name's sample
vector — every other name's samples read back unchanged — and the timers do
not touch the store at all. -/
theorem push_frame_c10 (name : String) (start stop : ℕ) (r r' : ResultsType)
    (h : push_result name start stop r = some r') :
    (∀ m, m ≠ name → lookupS r' m = lookupS r m) ∧
    (∀ mach : Machine, (start_timer mach).2.store = mach.store ∧
        (stop_timer mach).2.store = mach.store) := by
  obtain ⟨v, hv, rfl⟩ := push_result_some h
  exact ⟨fun m hm => lookupS_setEntry_other r hm _, fun mach => ⟨rfl, rfl⟩⟩

theorem push_frame_c10_witness :
    lookupS (setEntry wasi_results_init "fd_write" ([] ++ [duration 0 21]))
        "fd_read" =
      lookupS wasi_results_init "fd_read" :=
  (push_frame_c10 "fd_write" 0 21 wasi_results_init
      (setEntry wasi_results_init "fd_write" ([] ++ [duration 0 21])) rfl).1
    "fd_read" (by decide)

/-- C3: pushing a name outside the closed key set hits the `unwrap` panic —
embedded as `none` — so the call never returns normally and no updated store
(no new key, no recorded sample) ever results from it. -/
theorem push_unregistered_c3 (name : String) (start stop : ℕ)
    (r : ResultsType) (h : name ∉ keys r) :
    push_result name start stop r = none ∧
    ∀ r', push_result name start stop r ≠ some r' := by
  have hl : lookupS r name = none := lookupS_eq_none_of_not_mem h
  constructor
  · unfold push_result; rw [hl]
  · intro r' hcontra
    unfold push_result at hcontra
    rw [hl] at hcontra
    cases hcontra

theorem push_unregistered_c3_witness :
    push_result "bogus_hostcall" 3 7 wasi_results_init = none ∧
    ∀ r', push_result "bogus_hostcall" 3 7 wasi_results_init ≠ some r' :=
  push_unregistered_c3 "bogus_hostcall" 3 7 wasi_results_init (by decide)

/-- C4: the key set is exactly the enumerated closed set at construction,
every name starts with an empty sample vector, and a successful
`push_result` never adds or removes a key. -/
theorem key_set_invariant_c4 :
    keys wasi_results_init = closedSet ∧
    (∀ n ∈ closedSet, lookupS wasi_results_init n = some []) ∧
    (∀ (name : String) (start stop : ℕ) (r r' : ResultsType),
        push_result name start stop r = some r' → keys r' = keys r) := by
  refine ⟨?_, ?_, ?_⟩
  · simp [keys, wasi_results_init, List.map_map, Function.comp_def]
  · intro n hn
    exact lookupS_init_mem hn
  · intro name start stop r r' h
    obtain ⟨v, hv, rfl⟩ := push_result_some h
    exact keys_setEntry r name _

theorem key_set_invariant_c4_witness :
    keys (setEntry wasi_results_init "args_get" ([] ++ [duration 2 9])) =
      keys wasi_results_init :=
  key_set_invariant_c4.2.2 "args_get" 2 9 wasi_results_init
    (setEntry wasi_results_init "args_get" ([] ++ [duration 2 9])) rfl

/-- C2: a push to a registered name appends exactly one sample — the
length grows by one and the new last element is the tick delta divided by
the 2.1 calibration constant — and a sequence of `k` pushes to one name
from one thread yields exactly its `k` computed durations, in push order. -/
theorem push_append_c2 :
    (∀ (name : String) (start stop : ℕ) (r : ResultsType) (v : List ℚ),
        lookupS r name = some v →
        ∃ r' w, push_result name start stop r = some r' ∧
          lookupS r' name = some w ∧
          w.length = v.length + 1 ∧
          w.getLast? = some (duration start stop) ∧
          w = v ++ [duration start stop]) ∧
    (∀ name ∈ closedSet, ∀ ps : List (ℕ × ℕ),
        ∃ r', pushMany name ps wasi_results_init = some r' ∧
          lookupS r' name = some (ps.map (fun p => duration p.1 p.2))) := by
  constructor
  · intro name start stop r v hv
    refine ⟨setEntry r name (v ++ [duration start stop]),
      v ++ [duration start stop], ?_, lookupS_setEntry_self hv _, ?_, ?_, rfl⟩
    · unfold push_result; rw [hv]
    · simp
    · simp
  · intro name hn ps
    obtain ⟨r', h1, h2⟩ :=
      pushMany_lookupS name ps wasi_results_init [] (lookupS_init_mem hn)
    exact ⟨r', h1, by simpa using h2⟩

theorem push_append_c2_witness :
    (∃ r' w, push_result "fd_write" 0 21 wasi_results_init = some r' ∧
      lookupS r' "fd_write" = some w ∧
      w.length = 0 + 1 ∧
      w.getLast? = some (duration 0 21) ∧
      w = [] ++ [duration 0 21]) ∧
    (∃ r', pushMany "fd_read" [(0, 21), (21, 63)] wasi_results_init = some r' ∧
      lookupS r' "fd_read" =
        some ([(0, 21), (21, 63)].map (fun p => duration p.1 p.2))) :=
  ⟨push_append_c2.1 "fd_write" 0 21 wasi_results_init [] (by decide),
   push_append_c2.2 "fd_read" (by decide) [(0, 21), (21, 63)]⟩

/-- C8: `push_result` never validates `end ≥ start`: for any counter pair,
an inverted one included, the call on a registered name completes normally
and appends the non-negative value `((end - start) mod 2^64) / 2.1`, with
the wrapping `u64` subtraction rather than an error or a negative sample. -/
theorem push_no_validation_c8 (name : String) (start stop : ℕ)
    (r : ResultsType) (v : List ℚ) (hv : lookupS r name = some v)
    (hs : start < 2 ^ 64) (he : stop < 2 ^ 64) :
    ∃ r', push_result name start stop r = some r' ∧
      lookupS r' name = some (v ++ [duration start stop]) ∧
      0 ≤ duration start stop ∧
      duration start stop =
        ((((stop : ℤ) - (start : ℤ)) % 2 ^ 64 : ℤ) : ℚ) / (21 / 10) := by
  refine ⟨setEntry r name (v ++ [duration start stop]), ?_,
    lookupS_setEntry_self hv _, ?_, ?_⟩
  · unfold push_result; rw [hv]
  · unfold duration
    positivity
  · unfold duration u64sub
    congr 1
    have hz : (((stop + 2 ^ 64 - start) % 2 ^ 64 : ℕ) : ℤ) =
        ((stop : ℤ) - (start : ℤ)) % 2 ^ 64 := by
      omega
    rw [← hz]
    norm_cast

theorem push_no_validation_c8_witness :
    ∃ r', push_result "fd_seek" 10 3 wasi_results_init = some r' ∧
      lookupS r' "fd_seek" = some ([] ++ [duration 10 3]) ∧
      0 ≤ duration 10 3 ∧
      duration 10 3 =
        ((((3 : ℤ) - (10 : ℤ)) % 2 ^ 64 : ℤ) : ℚ) / (21 / 10) :=
  push_no_validation_c8 "fd_seek" 10 3 wasi_results_init []
    (by decide) (by decide) (by decide)

/-- C7: the reporter's mean and geometric mean both give the element back
on a one-element sample set; the mean of `[1, 2, 3]` is `2`; the geometric
mean of `[1, 1, 1]` is `1`; and a sample set containing a `0` duration has
geometric mean `0`. -/
theorem stats_means_c7 :
    (∀ x : ℚ, mean [x] = x ∧ geometric_mean [x] = (x : ℝ)) ∧
    mean [1, 2, 3] = 2 ∧
    geometric_mean [1, 1, 1] = 1 ∧
    (∀ l : List ℚ, (0 : ℚ) ∈ l → geometric_mean l = 0) := by
  refine ⟨fun x => ⟨?_, ?_⟩, ?_, ?_, fun l hl => ?_⟩
  · simp [mean]
  · simp [geometric_mean, Real.rpow_one]
  · norm_num [mean]
  · simp [geometric_mean, Real.one_rpow]
  · have hmem : (0 : ℝ) ∈ l.map (fun q : ℚ => (q : ℝ)) :=
      List.mem_map.mpr ⟨0, hl, by norm_num⟩
    have hprod : (l.map (fun q : ℚ => (q : ℝ))).prod = 0 :=
      List.prod_eq_zero hmem
    have hlen : ((l.length : ℝ))⁻¹ ≠ 0 := by
      have hne : l ≠ [] := List.ne_nil_of_mem hl
      have hpos : 0 < l.length := List.length_pos.mpr hne
      positivity
    unfold geometric_mean
    rw [hprod]
    exact Real.zero_rpow hlen

theorem stats_means_c7_witness :
    mean [(5 : ℚ)] = 5 ∧ geometric_mean [(0 : ℚ), 2] = 0 :=
  ⟨(stats_means_c7.1 5).1, stats_means_c7.2.2.2 [0, 2] (by decide)⟩

/-- C5: for any store with pairwise-distinct keys, the report is exactly
the non-empty entries rendered in store order; it carries exactly one line
per name with a non-empty sample set and zero lines for empty ones; and
every line consists of the debug-formatted name, the sample count, the
arithmetic mean and the geometric mean of that name's samples, in that
field order. -/
theorem report_lines_c5 (r : ResultsType) (hnd : (keys r).Nodup) :
    reportLines r = (r.filter (fun p => !p.2.isEmpty)).map mkLine ∧
    (∀ k v, (k, v) ∈ r →
        (reportLines r).countP (fun line => line.name == rustDebugString k) =
          if v.isEmpty then 0 else 1) ∧
    ∀ line ∈ reportLines r, ∃ k v, (k, v) ∈ r ∧ v ≠ [] ∧
      line.name = rustDebugString k ∧ line.count = v.length ∧
      line.mean = mean v ∧ line.geomean = geometric_mean v := by
  refine ⟨reportLines_eq r, ?_, ?_⟩
  · intro k v hm
    rw [reportLines_eq, List.countP_map, List.countP_filter]
    have h := countP_report_mem k v r hnd hm
    simpa [mkLine, Function.comp_def] using h
  · intro line hline
    rw [reportLines_eq] at hline
    obtain ⟨p, hp, rfl⟩ := List.mem_map.mp hline
    obtain ⟨hpr, hpe⟩ := List.mem_filter.mp hp
    refine ⟨p.1, p.2, hpr, ?_, rfl, rfl, rfl, rfl⟩
    simp at hpe
    exact hpe

theorem report_lines_c5_witness :
    reportLines [("fd_write", [(10 : ℚ)]), ("fd_read", [])] =
      (([("fd_write", [(10 : ℚ)]), ("fd_read", [])] : ResultsType).filter
          (fun p => !p.2.isEmpty)).map mkLine ∧
    (∀ k v, (k, v) ∈ ([("fd_write", [(10 : ℚ)]), ("fd_read", [])] : ResultsType) →
        (reportLines [("fd_write", [(10 : ℚ)]), ("fd_read", [])]).countP
            (fun line => line.name == rustDebugString k) =
          if v.isEmpty then 0 else 1) ∧
    ∀ line ∈ reportLines [("fd_write", [(10 : ℚ)]), ("fd_read", [])],
      ∃ k v, (k, v) ∈ ([("fd_write", [(10 : ℚ)]), ("fd_read", [])] : ResultsType) ∧
        v ≠ [] ∧ line.name = rustDebugString k ∧ line.count = v.length ∧
        line.mean = mean v ∧ line.geomean = geometric_mean v :=
  report_lines_c5 [("fd_write", [(10 : ℚ)]), ("fd_read", [])] (by decide)

/-- C6: reporting happens exactly once per run, strictly after the
monitored command has produced its result, and is unconditional in that
result: whether the command succeeded or failed, the report of the
post-command store is written and `main` returns the command's result
value unchanged. -/
theorem report_unconditional_c6
    (cmd : ResultsType → Except String Unit × ResultsType)
    (b : Bool) (s0 : ResultsType) :
    runMain cmd { createFails := false, writeFails := b } s0 =
      { reportWritten := some (reportLines (cmd s0).2),
        outcome := MainOutcome.returned (cmd s0).1 } := by
  simp [runMain]

/-- C1 counterexample: when `File::create` fails, even a successful
command does not get its result returned — `main` hits
`.expect("Unable to open file")` and panics — so a failure to create the
report file is not swallowed and does change the exit behavior. -/
theorem report_failure_c1_counterexample :
    (runMain (fun s => (Except.ok (), s))
        { createFails := true, writeFails := false } wasi_results_init).outcome ≠
      MainOutcome.returned (Except.ok ()) := by
  intro h
  simp only [runMain, Bool.true_eq_false, if_pos rfl] at h
  exact MainOutcome.noConfusion h

/-- C1 (amended): a failure of the report `writeln!` calls is swallowed —
the run is observably identical whether report writes fail or not, and
`main` still returns the monitored command's result unchanged — but a
failure of `File::create` on the report file is not: it makes `main`
panic instead of returning the command's result. -/
theorem write_failure_swallowed_c1
    (cmd : ResultsType → Except String Unit × ResultsType)
    (s0 : ResultsType) (b b' : Bool) :
    runMain cmd { createFails := false, writeFails := b } s0 =
      runMain cmd { createFails := false, writeFails := b' } s0 ∧
    (runMain cmd { createFails := false, writeFails := b } s0).outcome =
      MainOutcome.returned (cmd s0).1 := by
  simp [runMain]

end HostcallTiming
